import Mathlib

/-!
# Verification of the Monte Carlo measurement-error simulation engine

A shallow embedding of `src/assignment_4/monte_carlo/model.py` over exact
rationals. Floating-point values are idealised as `ℚ`; the shared numpy
random stream is modelled as an ambient sequence of primitive draws
`draws : ℕ → ℚ` together with a position counter that each drawing
operation advances (one stream element per drawn scalar). The library
transforms that have no exact rational counterpart — the factor used by
`numpy.random.Generator.multivariate_normal` and the floating square root
used by `numpy.sqrt` — are abstracted as parameters of the environment, so
every theorem below holds for all choices of those transforms.

Python's dynamic typing, which the validators inspect, is modelled by the
small universe `PyObj`; Python exceptions are modelled by `PyErr` and
fallible functions return `Except PyErr`.
-/

set_option maxHeartbeats 1600000

open Matrix

/-- A Python runtime value, as far as the validators can observe it:
a number, a string, or a list (e.g. a numpy array) of values. -/
inductive PyObj where
  | num (q : ℚ)
  | str (s : String)
  | list (xs : List PyObj)

/-- `isinstance(v, str)` for a `PyObj`. -/
def PyObj.isStr : PyObj → Bool
  | .str _ => true
  | _ => false

/-- Python's `hash` succeeds on numbers and strings but raises
`TypeError` on lists. -/
def PyObj.hashable : PyObj → Bool
  | .list _ => false
  | _ => true

/-- The Python type name, used in the unhashable-seed `TypeError`. -/
def PyObj.typeName : PyObj → String
  | .num _ => "int"
  | .str _ => "str"
  | .list _ => "list"

/-- The numeric value of a `PyObj`, defaulting to `0` for non-numbers
(the simulation phase is only reached on validated inputs). -/
def PyObj.toQ : PyObj → ℚ
  | .num q => q
  | _ => 0

/-- The entries of a list-like `PyObj`, defaulting to `[]`. -/
def PyObj.entries : PyObj → List PyObj
  | .list xs => xs
  | _ => []

/-- A Python exception, as raised by `model.py`: the exception class
together with its message. -/
inductive PyErr where
  | typeError (msg : String)
  | valueError (msg : String)
  | unboundLocalError (msg : String)
deriving DecidableEq

/-- The argument record of `do_monte_carlo`, with the dynamic typing the
validators can observe (`true_params`, `mean` and `seed` are arbitrary
Python values; the remaining fields are used numerically throughout). -/
structure Config where
  true_params : List PyObj
  y_sd : ℚ
  cov_type : String
  mean : PyObj
  meas_sds : List ℚ
  n_repetitions : Int
  seed : PyObj
  n_obs : Int

/-- `_fail_if_parameters_not_numerical`: raises `TypeError` when any entry
of `true_params` is string-typed. -/
def fail_if_parameters_not_numerical (sr : List PyObj) : Except PyErr Unit :=
  if sr.any PyObj.isStr then
    .error (.typeError "Parameter cannot be a string.")
  else
    .ok ()

/-- `_fail_if_meas_sds_negative`: raises `ValueError` when `np.any(sr < 0)`. -/
def fail_if_meas_sds_negative (sr : List ℚ) : Except PyErr Unit :=
  if sr.any (fun q => q < 0) then
    .error (.valueError "Standard deviation of measurement error cannot be negative.")
  else
    .ok ()

/-- `_fail_if_y_sd_negative`: raises `ValueError` when `sr < 0`. -/
def fail_if_y_sd_negative (sr : ℚ) : Except PyErr Unit :=
  if sr < 0 then
    .error (.valueError "Standard deviation of dependent variable y cannot be negative.")
  else
    .ok ()

/-- `_fail_if_seed_not_hashable`: calls `hash(seed)` and re-raises the
`TypeError` Python produces for unhashable values. -/
def fail_if_seed_not_hashable (seed : PyObj) : Except PyErr Unit :=
  if seed.hashable then
    .ok ()
  else
    .error (.typeError ("unhashable type: " ++ seed.typeName))

/-- `_fail_if_cov_type_not_valid`: raises `ValueError` unless the value is
`"deterministic"` or `"random"`. -/
def fail_if_cov_type_not_valid (s : String) : Except PyErr Unit :=
  if ¬(s = "deterministic" ∨ s = "random") then
    .error (.valueError ("Invalid cov_type: " ++ s ++ ". Must be 'random' or 'deterministic'"))
  else
    .ok ()

/-- `_fail_if_n_non_positive`: raises `ValueError` when `obs <= 0` (the
message text always says "observations", whichever argument is checked). -/
def fail_if_n_non_positive (obs : Int) : Except PyErr Unit :=
  if obs ≤ 0 then
    .error (.valueError ("Invalid number of observations: " ++ toString obs ++
      ". Must be a positive integer."))
  else
    .ok ()

/-- `_fail_if_mean_string`: raises `TypeError` when `mean` itself is a
string (`isinstance(param, str)`); entries inside a list are not examined. -/
def fail_if_mean_string (param : PyObj) : Except PyErr Unit :=
  match param with
  | .str _ => .error (.typeError "Mean cannot be a string.")
  | _ => .ok ()

/-- The validation prologue of `do_monte_carlo` (lines 41–48 of
`model.py`), running the eight checks in source order and stopping at the
first failure, as Python exception propagation does. -/
def validate (cfg : Config) : Except PyErr Unit := do
  fail_if_parameters_not_numerical cfg.true_params
  fail_if_meas_sds_negative cfg.meas_sds
  fail_if_y_sd_negative cfg.y_sd
  fail_if_seed_not_hashable cfg.seed
  fail_if_cov_type_not_valid cfg.cov_type
  fail_if_n_non_positive cfg.n_obs
  fail_if_n_non_positive cfg.n_repetitions
  fail_if_mean_string cfg.mean

/-- The ambient stochastic environment of one run: `draws` is the
sequence of primitive scalar draws the seeded generator produces, in draw
order (standard-normal draws for `normal`/`multivariate_normal`, raw
uniform draws for `uniform`); `mix` is the `cov`-dependent linear factor
`multivariate_normal` applies to its standard-normal block; `sqrtQ` is the
scalar square root `np.sqrt` computes. The theorems hold for every
environment. -/
structure SimEnv where
  draws : ℕ → ℚ
  mix : (k : ℕ) → Matrix (Fin k) (Fin k) ℚ → Matrix (Fin k) (Fin k) ℚ
  sqrtQ : ℚ → ℚ

/-- The fixed covariance matrix `np.eye(n_params) + 0.2` of the
deterministic mode. -/
def detCov (k : ℕ) : Matrix (Fin k) (Fin k) ℚ :=
  fun i j => (if i = j then 1 else 0) + 1/5

/-- The helper matrix `rng.uniform(low=-1, high=1, size=(n_params, n_params))`
drawn at stream position `p` (numpy maps a raw uniform `u ∈ [0,1)` to
`low + (high - low) · u`, filling the matrix row-major). -/
def uniformHelper (env : SimEnv) (k : ℕ) (p : ℕ) : Matrix (Fin k) (Fin k) ℚ :=
  fun i j => -1 + 2 * env.draws (p + i.val * k + j.val)

/-- The random-mode covariance matrix `helper @ helper.T + np.eye(n_params)`
built from the helper drawn at position `p`. -/
def randCov (env : SimEnv) (k : ℕ) (p : ℕ) : Matrix (Fin k) (Fin k) ℚ :=
  uniformHelper env k p * (uniformHelper env k p)ᵀ + 1

/-- `_generate_cov_matrix`: dispatches on `cov_type`; any other value
leaves the local `cov` unassigned and the `return cov` raises
`UnboundLocalError`. The deterministic branch consumes no draws; the
random branch consumes the `n_params × n_params` uniform block. -/
def generate_cov_matrix (env : SimEnv) (cov_type : String) (n_params : ℕ) (p : ℕ) :
    Except PyErr (Matrix (Fin n_params) (Fin n_params) ℚ × ℕ) :=
  if cov_type = "deterministic" then
    .ok (detCov n_params, p)
  else if cov_type = "random" then
    .ok (randCov env n_params p, p + n_params * n_params)
  else
    .error (.unboundLocalError "cannot access local variable 'cov' where it is not associated with a value")

/-- `_generate_independent_and_dependent_variables`: draws the design
`x = rng.multivariate_normal(mean, cov, size=n_obs)` (an `n_obs × k`
standard-normal block, row-major, pushed through the factor `mix cov` and
shifted by `mean`), then the response noise
`epsilon = rng.normal(0, y_sd, n_obs)`, and computes
`y = x @ true_params + epsilon` from the clean, uncorrupted `x`. Returns
`(x, y, epsilon)` and the advanced stream position. -/
def generate_independent_and_dependent_variables (env : SimEnv) {k : ℕ}
    (mean : Fin k → ℚ) (cov : Matrix (Fin k) (Fin k) ℚ) (n_obs : ℕ) (y_sd : ℚ)
    (p : ℕ) (true_params : Fin k → ℚ) :
    Matrix (Fin n_obs) (Fin k) ℚ × (Fin n_obs → ℚ) × (Fin n_obs → ℚ) × ℕ :=
  let x : Matrix (Fin n_obs) (Fin k) ℚ :=
    fun i j => mean j + Finset.univ.sum (fun l => env.draws (p + i.val * k + l.val) * env.mix k cov l j)
  let p1 := p + n_obs * k
  let epsilon : Fin n_obs → ℚ := fun i => 0 + y_sd * env.draws (p1 + i.val)
  let y : Fin n_obs → ℚ := fun i => Finset.univ.sum (fun j => x i j * true_params j) + epsilon i
  (x, y, epsilon, p1 + n_obs)

/-- `_generate_measurement_error`: draws
`meas_error = rng.normal(0, meas_sd, n_obs)` and adds it to column 0 of
`x` only (`x[:, 0] += meas_error`), returning the corrupted matrix and the
advanced stream position. -/
def generate_measurement_error (env : SimEnv) {k n_obs : ℕ}
    (x : Matrix (Fin n_obs) (Fin k) ℚ) (meas_sd : ℚ) (p : ℕ) :
    Matrix (Fin n_obs) (Fin k) ℚ × ℕ :=
  let meas_error : Fin n_obs → ℚ := fun i => 0 + meas_sd * env.draws (p + i.val)
  ((fun i j => if j.val = 0 then x i j + meas_error i else x i j), p + n_obs)

/-- The per-column mean of a matrix (what sklearn subtracts from the
design when fitting with its default `fit_intercept=True`). -/
def colMean {m k : ℕ} (x : Matrix (Fin m) (Fin k) ℚ) : Fin k → ℚ :=
  fun j => (Finset.univ.sum fun i => x i j) / m

/-- The mean of a vector. -/
def vecMean {m : ℕ} (y : Fin m → ℚ) : ℚ := (Finset.univ.sum y) / m

/-- The column-centred design. -/
def centerCols {m k : ℕ} (x : Matrix (Fin m) (Fin k) ℚ) : Matrix (Fin m) (Fin k) ℚ :=
  fun i j => x i j - colMean x j

/-- The centred response. -/
def centerVec {m : ℕ} (y : Fin m → ℚ) : Fin m → ℚ :=
  fun i => y i - vecMean y

/-- The normal-equations least-squares solution
`(AᵀA)⁻¹ Aᵀ b`, computed exactly over `ℚ` through the adjugate; it agrees
with any numerically-stable solver whenever `AᵀA` is invertible. -/
def lstsqCoef {m k : ℕ} (a : Matrix (Fin m) (Fin k) ℚ) (b : Fin m → ℚ) : Fin k → ℚ :=
  ((aᵀ * a).det⁻¹ • (aᵀ * a).adjugate).mulVec (aᵀ.mulVec b)

/-- `LinearRegression().fit(x, y).coef_` — sklearn's estimator with its
default `fit_intercept=True`: it centres the columns of `x` and the
response `y`, solves least squares on the centred data, and reports the
resulting slope vector (the fitted intercept is not part of `coef_`). -/
def fitCoef {m k : ℕ} (x : Matrix (Fin m) (Fin k) ℚ) (y : Fin m → ℚ) : Fin k → ℚ :=
  lstsqCoef (centerCols x) (centerVec y)

/-- Modelled from the spec's words for claim comparison: the estimator the
spec describes, an ordinary-least-squares fit *with no intercept term* on
the raw design. -/
def ols_no_intercept {m k : ℕ} (x : Matrix (Fin m) (Fin k) ℚ) (y : Fin m → ℚ) : Fin k → ℚ :=
  lstsqCoef x y

/-- One row of the returned result table. -/
structure Row where
  name : String
  bias : ℚ
  rmse : ℚ
  meas_sd : ℚ
deriving DecidableEq

/-- The per-level aggregation (lines 76–81 of `model.py`): with
`deviations = np.array(estimates) - true_params`, builds one row per
parameter, in name order `x_0 … x_{k-1}`, with `bias` the column mean of
the deviations, `rmse` the square root of the column mean of their
squares, and the current `meas_sd`. -/
def aggregate (env : SimEnv) {k : ℕ} (true_params : Fin k → ℚ) (meas_sd : ℚ)
    (estimates : List (Fin k → ℚ)) : List Row :=
  (List.finRange k).map fun i =>
    let devs := estimates.map fun e => e i - true_params i
    { name := "x_" ++ toString i.val
      bias := devs.sum / (estimates.length : ℚ)
      rmse := env.sqrtQ ((devs.map fun d => d * d).sum / (estimates.length : ℚ))
      meas_sd := meas_sd }

/-- The inner repetition loop (lines 60–72 of `model.py`): each pass
generates a sample, injects measurement error into it, fits the linear
model on the corrupted design against the clean response, and appends the
coefficient vector to the list of estimates. -/
def runReps (env : SimEnv) {k : ℕ} (mean : Fin k → ℚ)
    (cov : Matrix (Fin k) (Fin k) ℚ) (n_obs : ℕ) (y_sd : ℚ)
    (true_params : Fin k → ℚ) (meas_sd : ℚ) :
    (n : ℕ) → (p : ℕ) → List (Fin k → ℚ) × ℕ
  | 0, p => ([], p)
  | n + 1, p =>
    let gen := generate_independent_and_dependent_variables env mean cov n_obs y_sd p true_params
    let x := gen.1
    let y := gen.2.1
    let inj := generate_measurement_error env x meas_sd gen.2.2.2
    let params := fitCoef inj.1 y
    let rest := runReps env mean cov n_obs y_sd true_params meas_sd n inj.2
    (params :: rest.1, rest.2)

/-- One pass of the outer sweep loop (lines 56–82 of `model.py`): builds
the covariance matrix for this noise level, runs the repetitions, and
aggregates their estimates into this level's block of rows. -/
def runLevel (env : SimEnv) {k : ℕ} (cov_type : String) (mean : Fin k → ℚ)
    (n_obs : ℕ) (y_sd : ℚ) (true_params : Fin k → ℚ) (n_rep : ℕ)
    (meas_sd : ℚ) (p : ℕ) : Except PyErr (List Row × ℕ) := do
  let covp ← generate_cov_matrix env cov_type k p
  let ests := runReps env mean covp.1 n_obs y_sd true_params meas_sd n_rep covp.2
  .ok (aggregate env true_params meas_sd ests.1, ests.2)

/-- The outer sweep over `meas_sds`, collecting the per-level blocks in
sweep order (the `to_concat` list of `model.py`). -/
def simLoop (env : SimEnv) {k : ℕ} (cov_type : String) (mean : Fin k → ℚ)
    (n_obs : ℕ) (y_sd : ℚ) (true_params : Fin k → ℚ) (n_rep : ℕ) :
    (sds : List ℚ) → (p : ℕ) → Except PyErr (List (List Row) × ℕ)
  | [], p => .ok ([], p)
  | sd :: rest, p => do
    let blk ← runLevel env cov_type mean n_obs y_sd true_params n_rep sd p
    let tail ← simLoop env cov_type mean n_obs y_sd true_params n_rep rest blk.2
    .ok (blk.1 :: tail.1, tail.2)

/-- `pd.concat(to_concat)`: concatenates the collected blocks; pandas
raises `ValueError` when the list is empty. -/
def pd_concat (blocks : List (List Row)) : Except PyErr (List Row) :=
  if blocks.isEmpty then
    .error (.valueError "No objects to concatenate")
  else
    .ok blocks.flatten

/-- `n_params = len(true_params)`. -/
def kOf (cfg : Config) : ℕ := cfg.true_params.length

/-- The numeric coefficient vector of the configuration. -/
def tpOf (cfg : Config) : Fin (kOf cfg) → ℚ :=
  fun i => (cfg.true_params.get i).toQ

/-- The numeric mean vector of the configuration (entries of the
list-like `mean`, padded with `0` past its length; validated runs satisfy
the length invariant so no padding occurs there). -/
def meanOf (cfg : Config) : Fin (kOf cfg) → ℚ :=
  fun i => (cfg.mean.entries.getD i.val (.num 0)).toQ

/-- `do_monte_carlo`: validates the configuration, then seeds the stream
(position 0), runs the sweep, and concatenates the per-level blocks into
the flat result table. Any raised exception propagates and no table is
produced. -/
def do_monte_carlo (env : SimEnv) (cfg : Config) : Except PyErr (List Row) :=
  match validate cfg with
  | .error e => .error e
  | .ok _ =>
    match simLoop env cfg.cov_type (meanOf cfg) cfg.n_obs.toNat cfg.y_sd (tpOf cfg)
        cfg.n_repetitions.toNat cfg.meas_sds 0 with
    | .error e => .error e
    | .ok blocks => pd_concat blocks.1

/-- Draws consumed by one repetition: the `n_obs × k` multivariate-normal
block, the `n_obs` response-noise draws, and the `n_obs`
measurement-error draws. -/
def trialCost (k n_obs : ℕ) : ℕ := n_obs * k + n_obs + n_obs

/-- Draws consumed by one covariance generation. -/
def covCost (cov_type : String) (k : ℕ) : ℕ :=
  if cov_type = "deterministic" then 0 else k * k

/-- Draws consumed by one noise level of the sweep. -/
def levelCost (cov_type : String) (k n_obs n_rep : ℕ) : ℕ :=
  covCost cov_type k + n_rep * trialCost k n_obs

/-- The covariance matrix a valid `cov_type` produces at position `p`. -/
def covAt (env : SimEnv) (cov_type : String) (k p : ℕ) : Matrix (Fin k) (Fin k) ℚ :=
  if cov_type = "deterministic" then detCov k else randCov env k p

/-- The coefficient estimate one repetition starting at stream position
`p` produces: sample, inject measurement error, fit. -/
def estAt (env : SimEnv) {k : ℕ} (mean : Fin k → ℚ) (cov : Matrix (Fin k) (Fin k) ℚ)
    (n_obs : ℕ) (y_sd : ℚ) (true_params : Fin k → ℚ) (meas_sd : ℚ) (p : ℕ) : Fin k → ℚ :=
  let gen := generate_independent_and_dependent_variables env mean cov n_obs y_sd p true_params
  fitCoef (generate_measurement_error env gen.1 meas_sd gen.2.2.2).1 gen.2.1

/-- The estimates `n` successive repetitions starting at stream position
`p` append, one per repetition, in repetition order. -/
def estList (env : SimEnv) {k : ℕ} (mean : Fin k → ℚ) (cov : Matrix (Fin k) (Fin k) ℚ)
    (n_obs : ℕ) (y_sd : ℚ) (true_params : Fin k → ℚ) (meas_sd : ℚ) :
    (n : ℕ) → (p : ℕ) → List (Fin k → ℚ)
  | 0, _ => []
  | n + 1, p =>
    estAt env mean cov n_obs y_sd true_params meas_sd p ::
      estList env mean cov n_obs y_sd true_params meas_sd n (p + trialCost k n_obs)

/-- The estimates collected for the noise level starting at position `p`. -/
def estsAt (env : SimEnv) (cov_type : String) {k : ℕ} (mean : Fin k → ℚ)
    (n_obs : ℕ) (y_sd : ℚ) (true_params : Fin k → ℚ) (n_rep : ℕ) (meas_sd : ℚ)
    (p : ℕ) : List (Fin k → ℚ) :=
  estList env mean (covAt env cov_type k p) n_obs y_sd true_params meas_sd n_rep
    (p + covCost cov_type k)

/-- The block of rows the noise level starting at position `p` appends. -/
def blockAt (env : SimEnv) (cov_type : String) {k : ℕ} (mean : Fin k → ℚ)
    (n_obs : ℕ) (y_sd : ℚ) (true_params : Fin k → ℚ) (n_rep : ℕ) (meas_sd : ℚ)
    (p : ℕ) : List Row :=
  aggregate env true_params meas_sd
    (estsAt env cov_type mean n_obs y_sd true_params n_rep meas_sd p)

/-- The list of per-level blocks for the whole sweep. -/
def blocksFor (env : SimEnv) (cov_type : String) {k : ℕ} (mean : Fin k → ℚ)
    (n_obs : ℕ) (y_sd : ℚ) (true_params : Fin k → ℚ) (n_rep : ℕ) :
    List ℚ → ℕ → List (List Row)
  | [], _ => []
  | sd :: rest, p =>
    blockAt env cov_type mean n_obs y_sd true_params n_rep sd p ::
      blocksFor env cov_type mean n_obs y_sd true_params n_rep rest
        (p + levelCost cov_type k n_obs n_rep)

/-- A concrete environment for closed instances: an all-zero stream, the
identity factor and the identity square root. -/
def envZero : SimEnv :=
  { draws := fun _ => 0, mix := fun _ _ => 1, sqrtQ := fun q => q }

/-- A concrete 2×1 design matrix with rows `1` and `2`. -/
def xC1 : Matrix (Fin 2) (Fin 1) ℚ := fun i _ => if i.val = 0 then 1 else 2

/-- A concrete response vector `(0, 3)`. -/
def yC1 : Fin 2 → ℚ := fun i => if i.val = 0 then 0 else 3

/-- A small fully valid configuration. -/
def cfgBase : Config :=
  { true_params := [.num 1], y_sd := 1, cov_type := "deterministic",
    mean := .list [.num 0], meas_sds := [1], n_repetitions := 1,
    seed := .num 1, n_obs := 1 }

/-- A valid configuration whose `meas_sds` sweep is empty. -/
def cfgEmptySweep : Config := { cfgBase with meas_sds := [] }

/-- A configuration violating both the `true_params` rule (a string
entry) and the `meas_sds` rule (a negative entry). -/
def cfgTwoViolations : Config :=
  { cfgBase with true_params := [.str "a"], meas_sds := [-1] }

/-- A valid configuration except that `mean` is a list containing a
string entry (the `mean` itself is not a string). -/
def cfgMeanStrEntry : Config := { cfgBase with mean := .list [.str "a"] }

/-- A configuration with a negative `meas_sds` entry and numeric
`true_params` (as in the repository's own test). -/
def cfgNegMeas : Config := { cfgBase with meas_sds := [-2, 3] }

/-- The eight validation conditions, indexed in the source order of the
checks inside `do_monte_carlo`. -/
def violates (cfg : Config) : ℕ → Bool
  | 0 => cfg.true_params.any PyObj.isStr
  | 1 => cfg.meas_sds.any fun q => decide (q < 0)
  | 2 => decide (cfg.y_sd < 0)
  | 3 => !cfg.seed.hashable
  | 4 => !(decide (cfg.cov_type = "deterministic" ∨ cfg.cov_type = "random"))
  | 5 => decide (cfg.n_obs ≤ 0)
  | 6 => decide (cfg.n_repetitions ≤ 0)
  | 7 => cfg.mean.isStr
  | _ => false

/-- The exception each validation check raises, indexed as in `violates`. -/
def errOf (cfg : Config) : ℕ → PyErr
  | 0 => .typeError "Parameter cannot be a string."
  | 1 => .valueError "Standard deviation of measurement error cannot be negative."
  | 2 => .valueError "Standard deviation of dependent variable y cannot be negative."
  | 3 => .typeError ("unhashable type: " ++ cfg.seed.typeName)
  | 4 => .valueError ("Invalid cov_type: " ++ cfg.cov_type ++ ". Must be 'random' or 'deterministic'")
  | 5 => .valueError ("Invalid number of observations: " ++ toString cfg.n_obs ++
      ". Must be a positive integer.")
  | 6 => .valueError ("Invalid number of observations: " ++ toString cfg.n_repetitions ++
      ". Must be a positive integer.")
  | 7 => .typeError "Mean cannot be a string."
  | _ => .typeError ""

/-- The estimates collected for sweep level `l` of a validated run (the
run starts at stream position 0, and each level consumes `levelCost`
draws). -/
def levelEsts (env : SimEnv) (cfg : Config) (l : ℕ) : List (Fin (kOf cfg) → ℚ) :=
  estsAt env cfg.cov_type (meanOf cfg) cfg.n_obs.toNat cfg.y_sd (tpOf cfg)
    cfg.n_repetitions.toNat (cfg.meas_sds.getD l 0)
    (l * levelCost cfg.cov_type (kOf cfg) cfg.n_obs.toNat cfg.n_repetitions.toNat)

/-- Exception propagation: a raised exception skips the rest of the body. -/
@[simp] lemma except_error_bind {ε α β : Type} (e : ε) (f : α → Except ε β) :
    (Except.error e : Except ε α) >>= f = .error e := rfl

/-- Sequencing after a successful statement runs the rest of the body. -/
@[simp] lemma except_ok_bind {ε α β : Type} (a : α) (f : α → Except ε β) :
    (Except.ok a : Except ε α) >>= f = f a := rfl

/-- One unfolding step of the repetition loop. -/
lemma runReps_succ (env : SimEnv) {k : ℕ} (mean : Fin k → ℚ)
    (cov : Matrix (Fin k) (Fin k) ℚ) (n_obs : ℕ) (y_sd : ℚ) (tp : Fin k → ℚ)
    (sd : ℚ) (n p : ℕ) :
    runReps env mean cov n_obs y_sd tp sd (n + 1) p =
      (estAt env mean cov n_obs y_sd tp sd p ::
        (runReps env mean cov n_obs y_sd tp sd n (p + n_obs * k + n_obs + n_obs)).1,
        (runReps env mean cov n_obs y_sd tp sd n (p + n_obs * k + n_obs + n_obs)).2) := rfl

/-- Closed form of the repetition loop: it returns the list of
per-repetition estimates and advances the stream by `n` trials. -/
lemma runReps_eq (env : SimEnv) {k : ℕ} (mean : Fin k → ℚ)
    (cov : Matrix (Fin k) (Fin k) ℚ) (n_obs : ℕ) (y_sd : ℚ) (tp : Fin k → ℚ)
    (sd : ℚ) (n p : ℕ) :
    runReps env mean cov n_obs y_sd tp sd n p =
      (estList env mean cov n_obs y_sd tp sd n p, p + n * trialCost k n_obs) := by
  induction n generalizing p with
  | zero => simp [runReps, estList]
  | succ n ih =>
    have hpos : p + n_obs * k + n_obs + n_obs = p + trialCost k n_obs := by
      unfold trialCost
      ring
    rw [runReps_succ, hpos, ih]
    simp only [estList, Prod.mk.injEq]
    refine ⟨trivial, ?_⟩
    unfold trialCost
    ring

/-- On a valid `cov_type`, the covariance generator returns the matrix
`covAt` and advances the stream by `covCost`. -/
lemma generate_cov_matrix_valid (env : SimEnv) (ct : String) (k p : ℕ)
    (h : ct = "deterministic" ∨ ct = "random") :
    generate_cov_matrix env ct k p = .ok (covAt env ct k p, p + covCost ct k) := by
  rcases h with h | h <;> subst h <;>
    simp [generate_cov_matrix, covAt, covCost]

/-- Closed form of one sweep level on a valid `cov_type`. -/
lemma runLevel_eq (env : SimEnv) (ct : String) {k : ℕ} (mean : Fin k → ℚ)
    (n_obs : ℕ) (y_sd : ℚ) (tp : Fin k → ℚ) (n_rep : ℕ) (sd : ℚ) (p : ℕ)
    (h : ct = "deterministic" ∨ ct = "random") :
    runLevel env ct mean n_obs y_sd tp n_rep sd p =
      .ok (blockAt env ct mean n_obs y_sd tp n_rep sd p,
        p + levelCost ct k n_obs n_rep) := by
  unfold runLevel
  rw [generate_cov_matrix_valid env ct k p h]
  simp only [except_ok_bind]
  rw [runReps_eq]
  unfold blockAt estsAt levelCost
  simp only [Prod.mk.injEq, Except.ok.injEq]
  exact ⟨trivial, by ring⟩

/-- Closed form of the sweep loop on a valid `cov_type`. -/
lemma simLoop_eq (env : SimEnv) (ct : String) {k : ℕ} (mean : Fin k → ℚ)
    (n_obs : ℕ) (y_sd : ℚ) (tp : Fin k → ℚ) (n_rep : ℕ)
    (h : ct = "deterministic" ∨ ct = "random") :
    ∀ (sds : List ℚ) (p : ℕ),
      simLoop env ct mean n_obs y_sd tp n_rep sds p =
        .ok (blocksFor env ct mean n_obs y_sd tp n_rep sds p,
          p + sds.length * levelCost ct k n_obs n_rep) := by
  intro sds
  induction sds with
  | nil => intro p; simp [simLoop, blocksFor]
  | cons sd rest ih =>
    intro p
    rw [simLoop, runLevel_eq env ct mean n_obs y_sd tp n_rep sd p h]
    simp only [except_ok_bind]
    rw [ih]
    simp only [except_ok_bind, blocksFor, Except.ok.injEq, Prod.mk.injEq, List.length_cons]
    exact ⟨trivial, by ring⟩

/-- A validated configuration has a valid `cov_type` and positive sizes. -/
lemma validate_ok_facts (cfg : Config) (h : validate cfg = .ok ()) :
    (cfg.cov_type = "deterministic" ∨ cfg.cov_type = "random") ∧
      0 < cfg.n_obs ∧ 0 < cfg.n_repetitions := by
  unfold validate fail_if_parameters_not_numerical fail_if_meas_sds_negative
    fail_if_y_sd_negative fail_if_seed_not_hashable fail_if_cov_type_not_valid
    fail_if_n_non_positive fail_if_mean_string at h
  split_ifs at h with h1 h2 h3 h4 h5 h6 h7 <;> simp_all

/-- Closed form of a validated run: the result is the concatenation of
the per-level blocks of the sweep started at stream position 0. -/
lemma do_monte_carlo_eq (env : SimEnv) (cfg : Config) (hok : validate cfg = .ok ()) :
    do_monte_carlo env cfg =
      pd_concat (blocksFor env cfg.cov_type (meanOf cfg) cfg.n_obs.toNat cfg.y_sd
        (tpOf cfg) cfg.n_repetitions.toNat cfg.meas_sds 0) := by
  unfold do_monte_carlo
  rw [hok, simLoop_eq env cfg.cov_type (meanOf cfg) cfg.n_obs.toNat cfg.y_sd
    (tpOf cfg) cfg.n_repetitions.toNat (validate_ok_facts cfg hok).1 cfg.meas_sds 0]

/-- A level block has one row per parameter. -/
lemma aggregate_length (env : SimEnv) {k : ℕ} (tp : Fin k → ℚ) (sd : ℚ)
    (ests : List (Fin k → ℚ)) : (aggregate env tp sd ests).length = k := by
  simp [aggregate]

/-- The row at index `i` of a level block. -/
lemma aggregate_getElem (env : SimEnv) {k : ℕ} (tp : Fin k → ℚ) (sd : ℚ)
    (ests : List (Fin k → ℚ)) (j : Fin k) :
    (aggregate env tp sd ests)[j.val]? =
      some { name := "x_" ++ toString j.val
             bias := (ests.map fun e => e j - tp j).sum / (ests.length : ℚ)
             rmse := env.sqrtQ
               (((ests.map fun e => e j - tp j).map fun d => d * d).sum / (ests.length : ℚ))
             meas_sd := sd } := by
  unfold aggregate
  rw [List.getElem?_map]
  rw [List.getElem?_eq_getElem (by simpa using j.isLt)]
  simp

/-- The repetition loop produces one estimate per repetition. -/
lemma estList_length (env : SimEnv) {k : ℕ} (mean : Fin k → ℚ)
    (cov : Matrix (Fin k) (Fin k) ℚ) (n_obs : ℕ) (y_sd : ℚ) (tp : Fin k → ℚ)
    (sd : ℚ) : ∀ (n p : ℕ), (estList env mean cov n_obs y_sd tp sd n p).length = n := by
  intro n
  induction n with
  | zero => intro p; rfl
  | succ n ih => intro p; simp [estList, ih]

/-- The sweep produces one block per noise level. -/
lemma blocksFor_length (env : SimEnv) (ct : String) {k : ℕ} (mean : Fin k → ℚ)
    (n_obs : ℕ) (y_sd : ℚ) (tp : Fin k → ℚ) (n_rep : ℕ) :
    ∀ (sds : List ℚ) (p : ℕ),
      (blocksFor env ct mean n_obs y_sd tp n_rep sds p).length = sds.length := by
  intro sds
  induction sds with
  | nil => intro p; rfl
  | cons sd rest ih => intro p; simp [blocksFor, ih]

/-- Every block of the sweep has one row per parameter. -/
lemma blocksFor_mem_length (env : SimEnv) (ct : String) {k : ℕ} (mean : Fin k → ℚ)
    (n_obs : ℕ) (y_sd : ℚ) (tp : Fin k → ℚ) (n_rep : ℕ) :
    ∀ (sds : List ℚ) (p : ℕ) (b : List Row),
      b ∈ blocksFor env ct mean n_obs y_sd tp n_rep sds p → b.length = k := by
  intro sds
  induction sds with
  | nil => intro p b hb; simp [blocksFor] at hb
  | cons sd rest ih =>
    intro p b hb
    simp only [blocksFor, List.mem_cons] at hb
    rcases hb with hb | hb
    · subst hb; exact aggregate_length env tp sd _
    · exact ih _ b hb

/-- The block of level `l` in the sweep. -/
lemma blocksFor_getElem (env : SimEnv) (ct : String) {k : ℕ} (mean : Fin k → ℚ)
    (n_obs : ℕ) (y_sd : ℚ) (tp : Fin k → ℚ) (n_rep : ℕ) :
    ∀ (sds : List ℚ) (l p : ℕ) (hl : l < sds.length),
      (blocksFor env ct mean n_obs y_sd tp n_rep sds p)[l]? =
        some (blockAt env ct mean n_obs y_sd tp n_rep sds[l]
          (p + l * levelCost ct k n_obs n_rep)) := by
  intro sds
  induction sds with
  | nil => intro l p hl; simp at hl
  | cons sd rest ih =>
    intro l p hl
    cases l with
    | zero => simp [blocksFor]
    | succ l =>
      have harith : p + levelCost ct k n_obs n_rep + l * levelCost ct k n_obs n_rep =
          p + (l + 1) * levelCost ct k n_obs n_rep := by ring
      simp only [blocksFor, List.getElem?_cons_succ, List.getElem_cons_succ]
      rw [ih l (p + levelCost ct k n_obs n_rep) (by simpa using hl), harith]

/-- Length of the concatenation of uniformly sized blocks. -/
lemma flatten_length_uniform {α : Type} (k : ℕ) :
    ∀ (blocks : List (List α)), (∀ b ∈ blocks, b.length = k) →
      blocks.flatten.length = blocks.length * k := by
  intro blocks
  induction blocks with
  | nil => intro _; simp
  | cons b bs ih =>
    intro hall
    simp only [List.flatten_cons, List.length_append, List.length_cons]
    rw [hall b (by simp), ih fun b' hb' => hall b' (List.mem_cons_of_mem _ hb')]
    ring

/-- Indexing the concatenation of uniformly sized blocks: the row at flat
index `l·k + i` is row `i` of block `l`. -/
lemma flatten_getElem_uniform {α : Type} (k : ℕ) :
    ∀ (blocks : List (List α)), (∀ b ∈ blocks, b.length = k) →
      ∀ (l i : ℕ) (hl : l < blocks.length), i < k →
        blocks.flatten[l * k + i]? = (blocks.get ⟨l, hl⟩)[i]? := by
  intro blocks
  induction blocks with
  | nil => intro _ l i hl _; simp at hl
  | cons b bs ih =>
    intro hall l i hl hi
    have hb : b.length = k := hall b (by simp)
    cases l with
    | zero =>
      simp only [Nat.zero_mul, Nat.zero_add, List.flatten_cons, List.get_eq_getElem,
        List.getElem_cons_zero]
      rw [List.getElem?_append, if_pos (by omega)]
    | succ l =>
      have hskip : b.length ≤ (l + 1) * k + i := by rw [hb, Nat.succ_mul]; omega
      have hidx : (l + 1) * k + i - b.length = l * k + i := by rw [hb, Nat.succ_mul]; omega
      simp only [List.get_eq_getElem, List.getElem_cons_succ]
      rw [List.flatten_cons, List.getElem?_append_right hskip, hidx]
      have := ih (fun b2 hb2 => hall b2 (List.mem_cons_of_mem _ hb2)) l i
        (by simpa using hl) hi
      simpa [List.get_eq_getElem] using this

/-- The deterministic covariance matrix is symmetric. -/
lemma detCov_isSymm (k : ℕ) : (detCov k).IsSymm := by
  unfold Matrix.IsSymm
  funext i j
  simp [detCov, Matrix.transpose_apply, eq_comm]

/-- Row `i` of `detCov k *ᵥ v`. -/
lemma detCov_mulVec (k : ℕ) (v : Fin k → ℚ) (i : Fin k) :
    (detCov k).mulVec v i = v i + (1/5) * Finset.univ.sum v := by
  simp only [Matrix.mulVec, Matrix.dotProduct, detCov, add_mul, Finset.sum_add_distrib,
    ite_mul, one_mul, zero_mul, Finset.sum_ite_eq, Finset.mem_univ, if_true, Finset.mul_sum]

/-- The deterministic covariance matrix is positive semi-definite. -/
lemma detCov_psd (k : ℕ) (v : Fin k → ℚ) :
    0 ≤ Matrix.dotProduct v ((detCov k).mulVec v) := by
  have hexp : Matrix.dotProduct v ((detCov k).mulVec v) =
      (Finset.univ.sum fun i => v i * v i) +
        (1/5) * Finset.univ.sum v * Finset.univ.sum v := by
    simp only [Matrix.dotProduct]
    rw [Finset.sum_congr rfl fun i _ => by rw [detCov_mulVec k v i, mul_add]]
    rw [Finset.sum_add_distrib, ← Finset.sum_mul]
    ring
  rw [hexp]
  have h1 : 0 ≤ Finset.univ.sum fun i => v i * v i :=
    Finset.sum_nonneg fun i _ => mul_self_nonneg _
  have h2 : 0 ≤ (1/5 : ℚ) * Finset.univ.sum v * Finset.univ.sum v := by
    rw [mul_assoc]
    exact mul_nonneg (by norm_num) (mul_self_nonneg _)
  linarith

/-- The random-mode covariance matrix is symmetric. -/
lemma randCov_isSymm (env : SimEnv) (k p : ℕ) : (randCov env k p).IsSymm := by
  unfold Matrix.IsSymm randCov
  rw [Matrix.transpose_add, Matrix.transpose_mul, Matrix.transpose_transpose,
    Matrix.transpose_one]

/-- The random-mode covariance matrix is positive semi-definite: it is a
Gram matrix plus the identity. -/
lemma randCov_psd (env : SimEnv) (k p : ℕ) (v : Fin k → ℚ) :
    0 ≤ Matrix.dotProduct v ((randCov env k p).mulVec v) := by
  have hexp : Matrix.dotProduct v ((randCov env k p).mulVec v) =
      Matrix.dotProduct (v ᵥ* uniformHelper env k p) (v ᵥ* uniformHelper env k p) +
        Matrix.dotProduct v v := by
    rw [randCov, Matrix.add_mulVec, Matrix.dotProduct_add, Matrix.one_mulVec]
    congr 1
    rw [← Matrix.mulVec_mulVec, Matrix.dotProduct_mulVec, Matrix.mulVec_transpose]
  rw [hexp]
  have h1 : 0 ≤ Matrix.dotProduct (v ᵥ* uniformHelper env k p) (v ᵥ* uniformHelper env k p) :=
    Finset.sum_nonneg fun i _ => mul_self_nonneg _
  have h2 : 0 ≤ Matrix.dotProduct v v :=
    Finset.sum_nonneg fun i _ => mul_self_nonneg _
  linarith

/-- C4: for every design matrix `X` and every `meas_sd`, the
Measurement-Error Injector adds the drawn noise vector to column 0 of `X`
only; every column other than column 0 of the returned matrix is
identical to the corresponding column of the input, and the stream
advances by the `n_obs` noise draws. -/
theorem C4_injector_frame (env : SimEnv) {k n_obs : ℕ}
    (x : Matrix (Fin n_obs) (Fin k) ℚ) (meas_sd : ℚ) (p : ℕ) :
    (∀ (i : Fin n_obs) (j : Fin k), j.val ≠ 0 →
      (generate_measurement_error env x meas_sd p).1 i j = x i j) ∧
    (∀ (i : Fin n_obs) (j : Fin k), j.val = 0 →
      (generate_measurement_error env x meas_sd p).1 i j =
        x i j + (0 + meas_sd * env.draws (p + i.val))) ∧
    (generate_measurement_error env x meas_sd p).2 = p + n_obs := by
  refine ⟨?_, ?_, rfl⟩ <;> intro i j h <;> simp [generate_measurement_error, h]

/-- C4 witness: at a concrete input, column 1 is returned unchanged. -/
theorem C4_injector_frame_witness :
    (generate_measurement_error envZero (fun _ _ => (3 : ℚ)) 2 5).1
        (0 : Fin 1) (1 : Fin 2) = (fun (_ : Fin 1) (_ : Fin 2) => (3 : ℚ)) 0 1 :=
  (C4_injector_frame envZero (fun _ _ => (3 : ℚ)) 2 5).1 0 1 (by decide)

/-- C5: the Sample Generator's response satisfies `y = X·true_params + ε`
for the returned clean design `X` and noise `ε`, the shapes are
`n_obs × n_params` and `n_obs` (enforced by the types of the returned
matrix and vectors), and the generator consumes the `n_obs·k` design
draws followed by the `n_obs` response-noise draws — all before any
measurement error exists. -/
theorem C5_sample_generator (env : SimEnv) {k : ℕ} (mean : Fin k → ℚ)
    (cov : Matrix (Fin k) (Fin k) ℚ) (n_obs : ℕ) (y_sd : ℚ) (p : ℕ)
    (true_params : Fin k → ℚ) :
    (∀ i : Fin n_obs,
      (generate_independent_and_dependent_variables env mean cov n_obs y_sd p true_params).2.1 i =
        Finset.univ.sum (fun j =>
          (generate_independent_and_dependent_variables env mean cov n_obs y_sd p true_params).1 i j *
            true_params j) +
        (generate_independent_and_dependent_variables env mean cov n_obs y_sd p true_params).2.2.1 i) ∧
    (generate_independent_and_dependent_variables env mean cov n_obs y_sd p true_params).2.2.2 =
      p + n_obs * k + n_obs :=
  ⟨fun _ => rfl, rfl⟩

/-- C6: the Covariance Generator returns, in deterministic mode, the
fixed matrix with diagonal 1.2 and off-diagonal 0.2 without consuming any
draws (the output and position are independent of the environment), and
in both valid modes a symmetric positive semi-definite matrix. -/
theorem C6_cov_generator (env : SimEnv) (k p : ℕ) :
    generate_cov_matrix env "deterministic" k p = .ok (detCov k, p) ∧
    (∀ i j : Fin k, detCov k i j = if i = j then 6/5 else 1/5) ∧
    (∀ cov_type (cov : Matrix (Fin k) (Fin k) ℚ) (pout : ℕ),
      generate_cov_matrix env cov_type k p = .ok (cov, pout) →
      cov.IsSymm ∧ ∀ v : Fin k → ℚ, 0 ≤ Matrix.dotProduct v (cov.mulVec v)) := by
  refine ⟨by simp [generate_cov_matrix], ?_, ?_⟩
  · intro i j
    by_cases h : i = j
    · simp only [detCov, h, if_true]
      norm_num
    · simp only [detCov, h, if_false]
      norm_num
  · intro ct cov pout h
    unfold generate_cov_matrix at h
    split_ifs at h with h1 h2
    · simp only [Except.ok.injEq, Prod.mk.injEq] at h
      rw [← h.1]
      exact ⟨detCov_isSymm k, detCov_psd k⟩
    · simp only [Except.ok.injEq, Prod.mk.injEq] at h
      rw [← h.1]
      exact ⟨randCov_isSymm env k p, randCov_psd env k p⟩

/-- C6 witness: applying the theorem to the random mode at a concrete
position yields symmetry of the generated matrix. -/
theorem C6_cov_generator_witness : (randCov envZero 2 7).IsSymm :=
  ((C6_cov_generator envZero 2 7).2.2 "random" (randCov envZero 2 7) (7 + 2 * 2)
    (by rfl)).1

/-- C10: with `meas_sd = 0` the injector's drawn noise vector is exactly
zero — the returned design equals the clean input entry for entry — while
the stream still advances by the `n_obs` draws; consequently the
estimator of such a repetition fits the uncorrupted design. -/
theorem C10_zero_noise (env : SimEnv) {k n_obs : ℕ}
    (x : Matrix (Fin n_obs) (Fin k) ℚ) (p : ℕ) :
    generate_measurement_error env x 0 p = (x, p + n_obs) ∧
    (∀ (mean : Fin k → ℚ) (cov : Matrix (Fin k) (Fin k) ℚ) (y_sd : ℚ)
        (true_params : Fin k → ℚ),
      estAt env mean cov n_obs y_sd true_params 0 p =
        fitCoef
          (generate_independent_and_dependent_variables env mean cov n_obs y_sd p true_params).1
          (generate_independent_and_dependent_variables env mean cov n_obs y_sd p true_params).2.1) := by
  have hclean : ∀ (x' : Matrix (Fin n_obs) (Fin k) ℚ) (p' : ℕ),
      (generate_measurement_error env x' 0 p').1 = x' := by
    intro x' p'
    funext i j
    by_cases h : j.val = 0 <;> simp [generate_measurement_error, h]
  constructor
  · exact Prod.ext (hclean x p) rfl
  · intro mean cov y_sd tp
    simp only [estAt]
    rw [hclean]

/-- C1 counterexample: the Estimator of the code (sklearn's default,
which fits an intercept and reports the slopes) does not return the
no-intercept OLS coefficient vector. At design `(1; 2)` with response
`(0, 3)` the code computes slope 3, while the no-intercept OLS solution
is 6/5; the code's output violates the no-intercept normal equations
that the no-intercept solution satisfies. -/
theorem C1_counterexample :
    fitCoef xC1 yC1 ≠ ols_no_intercept xC1 yC1 ∧
    (xC1ᵀ * xC1).mulVec (ols_no_intercept xC1 yC1) = xC1ᵀ.mulVec yC1 ∧
    (xC1ᵀ * xC1).mulVec (fitCoef xC1 yC1) ≠ xC1ᵀ.mulVec yC1 := by
  have hf : fitCoef xC1 yC1 = fun _ => 3 := by
    funext j
    fin_cases j
    simp [fitCoef, lstsqCoef, Matrix.det_fin_one, Matrix.adjugate_fin_one,
      Matrix.mulVec, Matrix.dotProduct, Matrix.mul_apply, Fin.sum_univ_two,
      Fin.sum_univ_one, xC1, yC1, Matrix.transpose_apply, Matrix.smul_apply,
      Matrix.one_apply, centerCols, centerVec, colMean, vecMean]
    norm_num
  have ho : ols_no_intercept xC1 yC1 = fun _ => 6/5 := by
    funext j
    fin_cases j
    simp [ols_no_intercept, lstsqCoef, Matrix.det_fin_one, Matrix.adjugate_fin_one,
      Matrix.mulVec, Matrix.dotProduct, Matrix.mul_apply, Fin.sum_univ_two,
      Fin.sum_univ_one, xC1, yC1, Matrix.transpose_apply, Matrix.smul_apply,
      Matrix.one_apply]
    norm_num
  refine ⟨?_, ?_, ?_⟩
  · rw [hf, ho]
    intro hcontra
    have := congrFun hcontra 0
    norm_num at this
  · rw [ho]
    funext i
    fin_cases i
    simp [Matrix.mulVec, Matrix.dotProduct, Matrix.mul_apply, Fin.sum_univ_two,
      Fin.sum_univ_one, xC1, yC1, Matrix.transpose_apply]
    norm_num
  · rw [hf]
    intro hcontra
    have := congrFun hcontra 0
    simp [Matrix.mulVec, Matrix.dotProduct, Matrix.mul_apply, Fin.sum_univ_two,
      Fin.sum_univ_one, xC1, yC1, Matrix.transpose_apply] at this
    norm_num at this

/-- C1 (amended): the Estimator fits ordinary least squares *with* an
intercept term (sklearn's default) on the corrupted design against the
response: every per-repetition estimate the loop appends is `fitCoef` of
that repetition's corrupted design and clean response, and `fitCoef`
returns the slope vector of the intercept model — it solves the normal
equations of the column-centred problem whenever the centred Gram matrix
is invertible. -/
theorem C1_amended :
    (∀ (env : SimEnv) (k : ℕ) (mean : Fin k → ℚ) (cov : Matrix (Fin k) (Fin k) ℚ)
        (n_obs : ℕ) (y_sd : ℚ) (tp : Fin k → ℚ) (sd : ℚ) (n p : ℕ),
      (runReps env mean cov n_obs y_sd tp sd n p).1 =
        estList env mean cov n_obs y_sd tp sd n p) ∧
    (∀ (m k : ℕ) (x : Matrix (Fin m) (Fin k) ℚ) (y : Fin m → ℚ),
      ((centerCols x)ᵀ * centerCols x).det ≠ 0 →
      ((centerCols x)ᵀ * centerCols x).mulVec (fitCoef x y) =
        (centerCols x)ᵀ.mulVec (centerVec y)) := by
  constructor
  · intro env k mean cov n_obs y_sd tp sd n p
    rw [runReps_eq]
  · intro m k x y h
    unfold fitCoef lstsqCoef
    rw [Matrix.mulVec_mulVec, Matrix.mul_smul, Matrix.mul_adjugate, smul_smul,
      inv_mul_cancel₀ h, one_smul, Matrix.one_mulVec]

/-- C1 witness: the centred normal equations hold at the concrete design
`xC1` and response `yC1`, whose centred Gram matrix has determinant 1/2. -/
theorem C1_amended_witness :
    ((centerCols xC1)ᵀ * centerCols xC1).mulVec (fitCoef xC1 yC1) =
      (centerCols xC1)ᵀ.mulVec (centerVec yC1) :=
  C1_amended.2 2 1 xC1 yC1 (by
    simp [centerCols, colMean, xC1, Matrix.det_fin_one, Matrix.mul_apply,
      Fin.sum_univ_two, Matrix.transpose_apply]
    norm_num)

/-- C7: when a configuration violates several validation rules, the
exception raised by `do_monte_carlo` is the one of the first violated
check in source order (`true_params` string entry, negative `meas_sds`,
negative `y_sd`, unhashable seed, invalid `cov_type`, non-positive
`n_obs`, non-positive `n_repetitions`, string `mean`): whenever check `j`
is violated and all earlier checks pass, the run fails with exactly check
`j`'s error. -/
theorem C7_first_violation (cfg : Config) (j : ℕ) (hj : j < 8)
    (hv : violates cfg j = true) (hmin : ∀ i, i < j → violates cfg i = false) :
    validate cfg = .error (errOf cfg j) ∧
      ∀ env : SimEnv, do_monte_carlo env cfg = .error (errOf cfg j) := by
  have hval : validate cfg = .error (errOf cfg j) := by
    interval_cases j
    · simp only [violates] at hv
      simp [validate, fail_if_parameters_not_numerical, hv, errOf]
    · have h0 := hmin 0 (by omega)
      simp only [violates] at h0 hv
      simp [validate, fail_if_parameters_not_numerical, fail_if_meas_sds_negative,
        h0, hv, errOf]
    · have h0 := hmin 0 (by omega)
      have h1 := hmin 1 (by omega)
      simp only [violates] at h0 h1
      simp only [violates, decide_eq_true_eq] at hv
      simp [validate, fail_if_parameters_not_numerical, fail_if_meas_sds_negative,
        fail_if_y_sd_negative, h0, h1, hv, errOf]
    · have h0 := hmin 0 (by omega)
      have h1 := hmin 1 (by omega)
      have h2 := hmin 2 (by omega)
      simp only [violates] at h0 h1
      simp only [violates, decide_eq_false_iff_not] at h2
      simp only [violates, Bool.not_eq_true'] at hv
      simp [validate, fail_if_parameters_not_numerical, fail_if_meas_sds_negative,
        fail_if_y_sd_negative, fail_if_seed_not_hashable, h0, h1, h2, hv, errOf]
    · have h0 := hmin 0 (by omega)
      have h1 := hmin 1 (by omega)
      have h2 := hmin 2 (by omega)
      have h3 := hmin 3 (by omega)
      simp only [violates] at h0 h1
      simp only [violates, decide_eq_false_iff_not] at h2
      simp only [violates, Bool.not_eq_false'] at h3
      simp only [violates, Bool.not_eq_true', decide_eq_false_iff_not] at hv
      simp [validate, fail_if_parameters_not_numerical, fail_if_meas_sds_negative,
        fail_if_y_sd_negative, fail_if_seed_not_hashable, fail_if_cov_type_not_valid,
        h0, h1, h2, h3, hv, errOf]
    · have h0 := hmin 0 (by omega)
      have h1 := hmin 1 (by omega)
      have h2 := hmin 2 (by omega)
      have h3 := hmin 3 (by omega)
      have h4 := hmin 4 (by omega)
      simp only [violates] at h0 h1
      simp only [violates, decide_eq_false_iff_not] at h2
      simp only [violates, Bool.not_eq_false'] at h3
      simp only [violates, Bool.not_eq_false', decide_eq_true_eq] at h4
      simp only [violates, decide_eq_true_eq] at hv
      simp [validate, fail_if_parameters_not_numerical, fail_if_meas_sds_negative,
        fail_if_y_sd_negative, fail_if_seed_not_hashable, fail_if_cov_type_not_valid,
        fail_if_n_non_positive, h0, h1, h2, h3, h4, hv, errOf]
    · have h0 := hmin 0 (by omega)
      have h1 := hmin 1 (by omega)
      have h2 := hmin 2 (by omega)
      have h3 := hmin 3 (by omega)
      have h4 := hmin 4 (by omega)
      have h5 := hmin 5 (by omega)
      simp only [violates] at h0 h1
      simp only [violates, decide_eq_false_iff_not] at h2 h5
      simp only [violates, Bool.not_eq_false'] at h3
      simp only [violates, Bool.not_eq_false', decide_eq_true_eq] at h4
      simp only [violates, decide_eq_true_eq] at hv
      simp [validate, fail_if_parameters_not_numerical, fail_if_meas_sds_negative,
        fail_if_y_sd_negative, fail_if_seed_not_hashable, fail_if_cov_type_not_valid,
        fail_if_n_non_positive, h0, h1, h2, h3, h4, h5, hv, errOf]
    · have h0 := hmin 0 (by omega)
      have h1 := hmin 1 (by omega)
      have h2 := hmin 2 (by omega)
      have h3 := hmin 3 (by omega)
      have h4 := hmin 4 (by omega)
      have h5 := hmin 5 (by omega)
      have h6 := hmin 6 (by omega)
      simp only [violates] at h0 h1 hv
      simp only [violates, decide_eq_false_iff_not] at h2 h5 h6
      simp only [violates, Bool.not_eq_false'] at h3
      simp only [violates, Bool.not_eq_false', decide_eq_true_eq] at h4
      cases hm : cfg.mean with
      | num q => rw [hm] at hv; simp [PyObj.isStr] at hv
      | list xs => rw [hm] at hv; simp [PyObj.isStr] at hv
      | str s =>
        simp [validate, fail_if_parameters_not_numerical, fail_if_meas_sds_negative,
          fail_if_y_sd_negative, fail_if_seed_not_hashable, fail_if_cov_type_not_valid,
          fail_if_n_non_positive, fail_if_mean_string, h0, h1, h2, h3, h4, h5, h6,
          hm, errOf]
  refine ⟨hval, fun env => ?_⟩
  unfold do_monte_carlo
  rw [hval]

/-- C7 witness: a configuration violating both the `true_params` rule and
the `meas_sds` rule fails with the `true_params` error, the first in
source order. -/
theorem C7_first_violation_witness :
    validate cfgTwoViolations = .error (.typeError "Parameter cannot be a string.") ∧
      do_monte_carlo envZero cfgTwoViolations =
        .error (.typeError "Parameter cannot be a string.") := by
  have h := C7_first_violation cfgTwoViolations 0 (by omega) (by rfl)
    (fun i hi => absurd hi (by omega))
  exact ⟨h.1, h.2 envZero⟩

/-- C8 counterexample: a configuration with a negative `meas_sds` entry
*and* a string entry in `true_params` raises the `true_params`
`TypeError`, not the claimed measurement-noise `ValueError` — the
negative-`meas_sds` message is only guaranteed when the earlier check
passes. -/
theorem C8_counterexample :
    cfgTwoViolations.meas_sds.any (fun q => decide (q < 0)) = true ∧
    do_monte_carlo envZero cfgTwoViolations =
      .error (.typeError "Parameter cannot be a string.") ∧
    (PyErr.typeError "Parameter cannot be a string." ≠
      PyErr.valueError "Standard deviation of measurement error cannot be negative.") := by
  refine ⟨rfl, rfl, by decide⟩

/-- C8 (amended): for every configuration with a negative entry in
`meas_sds` whose `true_params` passes the (earlier) string check,
`do_monte_carlo` fails — for every environment, hence before any
randomness is consumed and with no partial table produced — with exactly
`ValueError("Standard deviation of measurement error cannot be
negative.")`. -/
theorem C8_neg_meas_sd (cfg : Config)
    (hneg : cfg.meas_sds.any (fun q => decide (q < 0)) = true)
    (hnostr : cfg.true_params.any PyObj.isStr = false) (env : SimEnv) :
    do_monte_carlo env cfg =
      .error (.valueError "Standard deviation of measurement error cannot be negative.") := by
  have hval : validate cfg =
      .error (.valueError "Standard deviation of measurement error cannot be negative.") := by
    simp [validate, fail_if_parameters_not_numerical, fail_if_meas_sds_negative,
      hnostr, hneg]
  unfold do_monte_carlo
  rw [hval]

/-- C8 witness: the repository's own test configuration (`meas_sds =
[-2, 3]`) fails with the exact message. -/
theorem C8_neg_meas_sd_witness :
    do_monte_carlo envZero cfgNegMeas =
      .error (.valueError "Standard deviation of measurement error cannot be negative.") :=
  C8_neg_meas_sd cfgNegMeas (by rfl) (by rfl) envZero

/-- C9 counterexample: a configuration whose `mean` is a list containing
a string entry passes validation — the code checks only whether `mean`
itself is a string, so a string-typed entry inside `mean` is not
rejected. -/
theorem C9_counterexample :
    cfgMeanStrEntry.mean.entries.any PyObj.isStr = true ∧
    validate cfgMeanStrEntry = .ok () :=
  ⟨rfl, rfl⟩

/-- C9 (amended): validation raises `TypeError("Mean cannot be a
string.")` exactly when `mean` itself is a string-typed value; entries
inside a list-valued `mean` are not examined. -/
theorem C9_mean_string_check (m : PyObj) :
    fail_if_mean_string m = .error (.typeError "Mean cannot be a string.") ↔
      m.isStr = true := by
  cases m <;> simp [fail_if_mean_string, PyObj.isStr]

/-- C9 witness: a string-valued `mean` is rejected. -/
theorem C9_mean_string_check_witness :
    fail_if_mean_string (.str "a") = .error (.typeError "Mean cannot be a string.") :=
  (C9_mean_string_check (.str "a")).mpr rfl

/-- C2 counterexample: a fully valid configuration whose `meas_sds` sweep
is empty does not yield a 0-row table — `pd.concat` of the empty block
list raises `ValueError`, so no ResultTable is produced at all. -/
theorem C2_counterexample :
    validate cfgEmptySweep = .ok () ∧
    do_monte_carlo envZero cfgEmptySweep = .error (.valueError "No objects to concatenate") :=
  ⟨rfl, rfl⟩

/-- C2 (amended): for every valid configuration with a nonempty
`meas_sds` sweep and at least one parameter, the returned table has
exactly `len(meas_sds) · n_params` rows, ordered noise level × parameter,
with names `x_0 … x_{n_params-1}` and each row's `meas_sd` equal to its
level's noise value. -/
theorem C2_result_table (env : SimEnv) (cfg : Config) (hok : validate cfg = .ok ())
    (hne : cfg.meas_sds ≠ []) (hk : 0 < kOf cfg) :
    ∃ rows : List Row,
      do_monte_carlo env cfg = .ok rows ∧
      rows.length = cfg.meas_sds.length * kOf cfg ∧
      ∀ (l i : ℕ) (hl : l < cfg.meas_sds.length) (hi : i < kOf cfg),
        ∃ r : Row, rows[l * kOf cfg + i]? = some r ∧
          r.name = "x_" ++ toString i ∧ r.meas_sd = cfg.meas_sds[l] := by
  set B := blocksFor env cfg.cov_type (meanOf cfg) cfg.n_obs.toNat cfg.y_sd (tpOf cfg)
    cfg.n_repetitions.toNat cfg.meas_sds 0 with hB
  have hlen : B.length = cfg.meas_sds.length := by
    rw [hB]
    exact blocksFor_length env cfg.cov_type (meanOf cfg) cfg.n_obs.toNat cfg.y_sd
      (tpOf cfg) cfg.n_repetitions.toNat cfg.meas_sds 0
  have hmem : ∀ b ∈ B, b.length = kOf cfg := by
    rw [hB]
    exact blocksFor_mem_length env cfg.cov_type (meanOf cfg) cfg.n_obs.toNat cfg.y_sd
      (tpOf cfg) cfg.n_repetitions.toNat cfg.meas_sds 0
  have hflat : do_monte_carlo env cfg = .ok B.flatten := by
    rw [do_monte_carlo_eq env cfg hok]
    unfold pd_concat
    rw [if_neg]
    simp only [List.isEmpty_iff]
    intro hBnil
    rw [← hB] at hBnil
    apply hne
    rw [hBnil] at hlen
    exact List.eq_nil_of_length_eq_zero (by simpa using hlen.symm)
  refine ⟨B.flatten, hflat, ?_, ?_⟩
  · rw [flatten_length_uniform (kOf cfg) B hmem, hlen]
  · intro l i hl hi
    have hlB : l < B.length := by rw [hlen]; exact hl
    have hidx := flatten_getElem_uniform (kOf cfg) B hmem l i hlB hi
    have hBl : B[l]? = some (blockAt env cfg.cov_type (meanOf cfg) cfg.n_obs.toNat
        cfg.y_sd (tpOf cfg) cfg.n_repetitions.toNat cfg.meas_sds[l]
        (0 + l * levelCost cfg.cov_type (kOf cfg) cfg.n_obs.toNat cfg.n_repetitions.toNat)) := by
      rw [hB]
      exact blocksFor_getElem env cfg.cov_type (meanOf cfg) cfg.n_obs.toNat cfg.y_sd
        (tpOf cfg) cfg.n_repetitions.toNat cfg.meas_sds l 0 hl
    have hBl2 : B.get ⟨l, hlB⟩ = blockAt env cfg.cov_type (meanOf cfg) cfg.n_obs.toNat
        cfg.y_sd (tpOf cfg) cfg.n_repetitions.toNat cfg.meas_sds[l]
        (0 + l * levelCost cfg.cov_type (kOf cfg) cfg.n_obs.toNat cfg.n_repetitions.toNat) := by
      have hsome := List.getElem?_eq_getElem hlB
      rw [hsome] at hBl
      rw [List.get_eq_getElem]
      exact Option.some.inj hBl
    rw [hBl2] at hidx
    unfold blockAt at hidx
    rw [aggregate_getElem env (tpOf cfg) cfg.meas_sds[l] _ ⟨i, hi⟩] at hidx
    exact ⟨_, hidx, rfl, rfl⟩

/-- C2 witness: the amended table theorem applied to a small concrete
valid configuration. -/
theorem C2_result_table_witness :
    ∃ rows : List Row,
      do_monte_carlo envZero cfgBase = .ok rows ∧
      rows.length = cfgBase.meas_sds.length * kOf cfgBase ∧
      ∀ (l i : ℕ) (hl : l < cfgBase.meas_sds.length) (hi : i < kOf cfgBase),
        ∃ r : Row, rows[l * kOf cfgBase + i]? = some r ∧
          r.name = "x_" ++ toString i ∧ r.meas_sd = cfgBase.meas_sds[l] :=
  C2_result_table envZero cfgBase (by rfl) (by decide) (by decide)

/-- C3: in the returned table, the row of parameter `j` at noise level
`l` has `bias` equal to the mean over the `n_repetitions` estimates of
`estimate_j − true_params_j` and `rmse` equal to the square root of the
mean of the squared deviations, tagged with that level's `meas_sd`. -/
theorem C3_bias_rmse (env : SimEnv) (cfg : Config) (hok : validate cfg = .ok ())
    (l : ℕ) (hl : l < cfg.meas_sds.length) (j : Fin (kOf cfg)) :
    ∃ rows : List Row,
      do_monte_carlo env cfg = .ok rows ∧
      rows[l * kOf cfg + j.val]? = some
        { name := "x_" ++ toString j.val
          bias := ((levelEsts env cfg l).map fun e => e j - tpOf cfg j).sum /
            (cfg.n_repetitions.toNat : ℚ)
          rmse := env.sqrtQ
            ((((levelEsts env cfg l).map fun e => e j - tpOf cfg j).map fun d => d * d).sum /
              (cfg.n_repetitions.toNat : ℚ))
          meas_sd := cfg.meas_sds[l] } := by
  set B := blocksFor env cfg.cov_type (meanOf cfg) cfg.n_obs.toNat cfg.y_sd (tpOf cfg)
    cfg.n_repetitions.toNat cfg.meas_sds 0 with hB
  have hlen : B.length = cfg.meas_sds.length := by
    rw [hB]
    exact blocksFor_length env cfg.cov_type (meanOf cfg) cfg.n_obs.toNat cfg.y_sd
      (tpOf cfg) cfg.n_repetitions.toNat cfg.meas_sds 0
  have hmem : ∀ b ∈ B, b.length = kOf cfg := by
    rw [hB]
    exact blocksFor_mem_length env cfg.cov_type (meanOf cfg) cfg.n_obs.toNat cfg.y_sd
      (tpOf cfg) cfg.n_repetitions.toNat cfg.meas_sds 0
  have hflat : do_monte_carlo env cfg = .ok B.flatten := by
    rw [do_monte_carlo_eq env cfg hok]
    unfold pd_concat
    rw [if_neg]
    simp only [List.isEmpty_iff]
    intro hBnil
    rw [← hB] at hBnil
    rw [hBnil] at hlen
    simp at hlen
    omega
  refine ⟨B.flatten, hflat, ?_⟩
  have hlB : l < B.length := by rw [hlen]; exact hl
  have hidx := flatten_getElem_uniform (kOf cfg) B hmem l j.val hlB j.isLt
  have hBl : B[l]? = some (blockAt env cfg.cov_type (meanOf cfg) cfg.n_obs.toNat
      cfg.y_sd (tpOf cfg) cfg.n_repetitions.toNat cfg.meas_sds[l]
      (0 + l * levelCost cfg.cov_type (kOf cfg) cfg.n_obs.toNat cfg.n_repetitions.toNat)) := by
    rw [hB]
    exact blocksFor_getElem env cfg.cov_type (meanOf cfg) cfg.n_obs.toNat cfg.y_sd
      (tpOf cfg) cfg.n_repetitions.toNat cfg.meas_sds l 0 hl
  have hBl2 : B.get ⟨l, hlB⟩ = blockAt env cfg.cov_type (meanOf cfg) cfg.n_obs.toNat
      cfg.y_sd (tpOf cfg) cfg.n_repetitions.toNat cfg.meas_sds[l]
      (0 + l * levelCost cfg.cov_type (kOf cfg) cfg.n_obs.toNat cfg.n_repetitions.toNat) := by
    have hsome := List.getElem?_eq_getElem hlB
    rw [hsome] at hBl
    rw [List.get_eq_getElem]
    exact Option.some.inj hBl
  rw [hBl2] at hidx
  unfold blockAt at hidx
  rw [aggregate_getElem env (tpOf cfg) cfg.meas_sds[l] _ j] at hidx
  rw [hidx]
  have hests : estsAt env cfg.cov_type (meanOf cfg) cfg.n_obs.toNat cfg.y_sd (tpOf cfg)
      cfg.n_repetitions.toNat cfg.meas_sds[l]
      (0 + l * levelCost cfg.cov_type (kOf cfg) cfg.n_obs.toNat cfg.n_repetitions.toNat) =
      levelEsts env cfg l := by
    unfold levelEsts
    rw [List.getD_eq_getElem cfg.meas_sds 0 hl, Nat.zero_add]
  rw [hests]
  have hestlen : (levelEsts env cfg l).length = cfg.n_repetitions.toNat := by
    unfold levelEsts estsAt
    rw [estList_length]
  rw [hestlen]

/-- C3 witness: the bias/rmse row theorem applied to the first level and
first parameter of a small concrete valid configuration. -/
theorem C3_bias_rmse_witness :
    ∃ rows : List Row,
      do_monte_carlo envZero cfgBase = .ok rows ∧
      rows[0 * kOf cfgBase + (0 : ℕ)]? = some
        { name := "x_" ++ toString (0 : ℕ)
          bias := ((levelEsts envZero cfgBase 0).map
              (fun e => e ⟨0, by decide⟩ - tpOf cfgBase ⟨0, by decide⟩)).sum /
            (cfgBase.n_repetitions.toNat : ℚ)
          rmse := envZero.sqrtQ
            ((((levelEsts envZero cfgBase 0).map
                (fun e => e ⟨0, by decide⟩ - tpOf cfgBase ⟨0, by decide⟩)).map
              (fun d => d * d)).sum / (cfgBase.n_repetitions.toNat : ℚ))
          meas_sd := 1 } :=
  C3_bias_rmse envZero cfgBase (by rfl) 0 (by decide) ⟨0, by decide⟩
